import Mathlib

/-!
Verification of the Z8000 standalone emulator core (flumf/z8000_emu).

The development shallowly embeds the repository's code in Lean 4:

* the helpers of `src/include/emu.h` (`swapendian_int16`, `swapendian_int32`,
  the `BYTE*_XOR_BE` index macros, `string_format`, the `devcb_read` stubs)
  are translated directly from the C++ source, with machine integers
  represented as `Nat` and truncation made explicit via `% 2^w`;
* the CPU core itself (register file union, trap entry, reset, HALT,
  INC/DEC flag updates, block instructions) is not part of the two source
  files of the repository, so those operations are modelled from the
  specification and from the memory-map table shipped in the repository's
  README (embedded in `src/include/emu.h`).
-/

namespace Z8000

/-! ### Byte-swap helpers (src/include/emu.h, lines 33-40)

`swapendian_int16` / `swapendian_int32` are translated literally: the C
operands are `u16` / `u32`, so the 16-bit version truncates the result of
`(val >> 8) | (val << 8)` to 16 bits on return, and in the 32-bit version
every OR-ed term is already masked below `2^32`. -/

def swapendian_int16 (val : Nat) : Nat :=
  ((val >>> 8) ||| (val <<< 8)) % 65536

def swapendian_int32 (val : Nat) : Nat :=
  ((val >>> 24) &&& 0xff) ||| ((val >>> 8) &&& 0xff00) |||
  ((val <<< 8) &&& 0xff0000) ||| ((val <<< 24) &&& 0xff000000)

/-! ### string_format (src/include/emu.h, lines 133-138)

The C++ helper formats its arguments into a fixed `char buf[256]` with
`snprintf(buf, sizeof(buf), fmt, args...)` and returns `std::string(buf)`.
`snprintf` stores at most 255 characters plus a terminating NUL, so the
returned string is the formatted output truncated to 255 characters.  The
variadic formatting itself is abstracted: the parameter `formatted` stands
for the byte sequence `snprintf` would produce for the given format string
and arguments if the buffer were unbounded. -/

def string_format (formatted : List Nat) : List Nat :=
  formatted.take 255

/-! ### devcb_read stub (src/include/emu.h, lines 110-131)

The stub callback array ignores `resolve_all_safe`'s `default_val`
argument entirely (its body is `{}`), and both `operator[]` and
`operator()` return the member `m_default`, which is initialized to `0`
and never written.  `T` is instantiated at `u16` (`devcb_read16`); the
element type is modelled as `Nat` and the `int` parameters as `Int`. -/

structure devcb_read_array where
  m_default : Nat

/-- A freshly constructed `devcb_read<T>::array`: `T m_default = 0`. -/
def devcb_read_array.init : devcb_read_array := ⟨0⟩

/-- `resolve_all_safe(T default_val) {}` — an empty body: no state change. -/
def devcb_read_array.resolve_all_safe (a : devcb_read_array) (default_val : Nat) :
    devcb_read_array := a

/-- `T operator[](int index) const { return m_default; }` -/
def devcb_read_array.opIndex (a : devcb_read_array) (index : Int) : Nat :=
  a.m_default

/-- `T operator()(int param) const { return m_default; }` -/
def devcb_read_array.opCall (a : devcb_read_array) (param : Int) : Nat :=
  a.m_default

/-! ### Register file (src/include/emu.h, lines 42-67, and spec section 3.1/4.1)

The XOR index macros below are the little-endian-host branch of
`src/include/emu.h` (the build target relevant to the aliasing trick).
The backing store itself and the `RW`/`RB`/`RL`/`RQ` accessors live in the
missing `z8000cpu.h`; they are modelled from the accessor formulas quoted
in the comments of `src/include/emu.h` (lines 46-53) and from the spec:
a single 32-byte store addressed through little-endian host words/longs,
with `RW(n) = W[BYTE4_XOR_BE(n)]`,
`RB(n) = B[BYTE8_XOR_BE(((n & 7) << 1) | ((n & 8) >> 3))]`,
`RL(n) = L[BYTE_XOR_BE(n >> 1)]`.
The store is a byte map; every write truncates to a byte. -/

def BYTE8_XOR_BE (x : Nat) : Nat := x ^^^ 3

def BYTE4_XOR_BE (x : Nat) : Nat := x ^^^ 1

def BYTE_XOR_BE (x : Nat) : Nat := x

def Regs : Type := Nat → Nat

def updByte (r : Regs) (i v : Nat) : Regs :=
  fun j => if j = i then v % 256 else r j

/-- Little-endian host 16-bit view of the backing store (`u16 W[16]`). -/
def hostW (r : Regs) (i : Nat) : Nat :=
  r (2 * i) + 256 * r (2 * i + 1)

def hostW_write (r : Regs) (i v : Nat) : Regs :=
  updByte (updByte r (2 * i) v) (2 * i + 1) (v / 256)

/-- Little-endian host 32-bit view of the backing store (`u32 L[8]`). -/
def hostL (r : Regs) (i : Nat) : Nat :=
  r (4 * i) + 256 * r (4 * i + 1) + 65536 * r (4 * i + 2) + 16777216 * r (4 * i + 3)

def hostL_write (r : Regs) (i v : Nat) : Regs :=
  updByte (updByte (updByte (updByte r (4 * i) v)
    (4 * i + 1) (v / 256)) (4 * i + 2) (v / 65536)) (4 * i + 3) (v / 16777216)

/-- Byte-register index: Z8000 byte register `n` (RH0..RH7 for 0..7,
RL0..RL7 for 8..15) sits at host byte `BYTE8_XOR_BE(((n&7)<<1)|((n&8)>>3))`. -/
def rbIndex (n : Nat) : Nat :=
  BYTE8_XOR_BE (((n &&& 7) <<< 1) ||| ((n &&& 8) >>> 3))

def RB_read (r : Regs) (n : Nat) : Nat := r (rbIndex n)

def RB_write (r : Regs) (n v : Nat) : Regs := updByte r (rbIndex n) v

def RW_read (r : Regs) (n : Nat) : Nat := hostW r (BYTE4_XOR_BE n)

def RW_write (r : Regs) (n v : Nat) : Regs := hostW_write r (BYTE4_XOR_BE n) v

def RL_read (r : Regs) (n : Nat) : Nat := hostL r (BYTE_XOR_BE (n >>> 1))

def RL_write (r : Regs) (n v : Nat) : Regs := hostL_write r (BYTE_XOR_BE (n >>> 1)) v

/-- `RH(k)`: the high byte of word register `k` (byte register number `k`). -/
def RH_byte_read (r : Regs) (k : Nat) : Nat := RB_read r k

/-- `RL(k)` as a byte register: the low byte of word register `k`
(byte register number `k + 8`). -/
def RL_byte_read (r : Regs) (k : Nat) : Nat := RB_read r (k + 8)

/-- Modelled from the spec: the quad view `RQ(n)`, `n ∈ {0,4,8,12}`, is
"four consecutive words, RW(n) high" (spec 3.1); spec 4.1 allows the
implementation to assemble the wide views explicitly from the single
backing store, which is what the missing `z8000cpu.h` accessor must do
on top of this shim's 4-byte-level XOR swizzle. -/
def RQ_read (r : Regs) (n : Nat) : Nat :=
  RW_read r n * 281474976710656 + RW_read r (n + 1) * 4294967296 +
    RW_read r (n + 2) * 65536 + RW_read r (n + 3)

def RQ_write (r : Regs) (n v : Nat) : Regs :=
  RW_write (RW_write (RW_write (RW_write r n (v / 281474976710656))
    (n + 1) (v / 4294967296)) (n + 2) (v / 65536)) (n + 3) v

/-- One register-file write through one of the four views. -/
inductive RegWrite
  | byte (n v : Nat)
  | word (n v : Nat)
  | long (n v : Nat)
  | quad (n v : Nat)

def applyWrite (r : Regs) : RegWrite → Regs
  | RegWrite.byte n v => RB_write r n v
  | RegWrite.word n v => RW_write r n v
  | RegWrite.long n v => RL_write r n v
  | RegWrite.quad n v => RQ_write r n v

/-- The register file after a sequence of writes through arbitrary views. -/
def applyWrites (r : Regs) (ws : List RegWrite) : Regs :=
  ws.foldl applyWrite r

/-! ### CPU state, trap entry, reset, HALT

Modelled from the spec: the CPU core (`z8000.cpp` / `z8000ops.hxx`) is not
among the repository's source files; the trap-entry sequence, `reset()` and
the HALT handler are modelled from spec sections 3.3, 4.5 ("Trap and
interrupt entry") and 6.1, with the trap vector addresses taken from the
Memory Map table of the repository's README (`src/include/emu.h`,
lines 183-206).  Memory is a byte map; words are big-endian (high byte at
the lower address), and the stack pointer R15 wraps modulo `2^16`. -/

def Mem : Type := Nat → Nat

def memWriteByte (m : Mem) (a v : Nat) : Mem :=
  fun x => if x = a then v % 256 else m x

/-- Big-endian 16-bit read: high byte at the even (lower) address. -/
def memReadWord (m : Mem) (a : Nat) : Nat :=
  m a % 256 * 256 + m (a + 1) % 256

def memWriteWord (m : Mem) (a v : Nat) : Mem :=
  memWriteByte (memWriteByte m a (v / 256)) (a + 1) v

structure CPUState where
  pc : Nat
  fcw : Nat
  psap : Nat
  refresh : Nat
  irq_req : Nat
  nmi_pending : Bool
  halt : Bool
  regs : Nat → Nat

def updReg (f : Nat → Nat) (i v : Nat) : Nat → Nat :=
  fun j => if j = i then v % 65536 else f j

/-- FCW address of trap source `T` relative to PSAP, from the README's
Memory Map: 0 = reset (0x02), 1 = extended-instruction (0x06),
2 = privileged-instruction (0x0A), 3 = system-call (0x0E),
4 = segment-trap (0x12), 5 = NMI (0x16), 6 = non-vectored (0x1A),
7 = vectored (0x1E). -/
def vectorFCWOffset : Nat → Nat
  | 0 => 0x02
  | 1 => 0x06
  | 2 => 0x0A
  | 3 => 0x0E
  | 4 => 0x12
  | 5 => 0x16
  | 6 => 0x1A
  | 7 => 0x1E
  | _ => 0

/-- PC address of trap source `T` relative to PSAP, from the README's
Memory Map (always two bytes past the FCW word). -/
def vectorPCOffset : Nat → Nat
  | 0 => 0x04
  | 1 => 0x08
  | 2 => 0x0C
  | 3 => 0x10
  | 4 => 0x14
  | 5 => 0x18
  | 6 => 0x1C
  | 7 => 0x20
  | _ => 0

/-- Modelled from the spec: the Z8002 trap/interrupt entry sequence for a
source without an id word (reset, NMI, NVI, extended-instruction,
privileged-instruction, segment trap).  Pushes the old FCW, then the old
PC (each push pre-decrements SP = R15 by 2 modulo `2^16`, so the stack
holds PC at the lower address and FCW above it), then loads the new FCW
and PC from the PSAP vector table entry for source `t`. -/
def trapEntry (t : Nat) (st : CPUState) (mem : Mem) : CPUState × Mem :=
  let sp1 := (st.regs 15 + 65534) % 65536
  let m1 := memWriteWord mem sp1 st.fcw
  let sp2 := (sp1 + 65534) % 65536
  let m2 := memWriteWord m1 sp2 st.pc
  ({ st with
      pc := memReadWord m2 (st.psap + vectorPCOffset t),
      fcw := memReadWord m2 (st.psap + vectorFCWOffset t),
      regs := updReg st.regs 15 sp2 }, m2)

/-- Modelled from the spec: `reset()` reloads PC/FCW from PSAP vector 0
and clears the pending-interrupt latches, the halt flag and the refresh
register; the general registers are untouched. -/
def reset (st : CPUState) (mem : Mem) : CPUState :=
  { st with
      pc := memReadWord mem (st.psap + vectorPCOffset 0),
      fcw := memReadWord mem (st.psap + vectorFCWOffset 0),
      irq_req := 0,
      nmi_pending := false,
      halt := false,
      refresh := 0 }

/-- Modelled from the spec: the HALT handler requires system mode
(FCW bit 14); in normal mode it raises a privileged-instruction trap
(source 2) instead of halting. -/
def execHALT (st : CPUState) (mem : Mem) : CPUState × Mem :=
  if st.fcw.testBit 14 then ({ st with halt := true }, mem)
  else trapEntry 2 st mem

/-! ### INC/DEC flag computation

Modelled from the spec (section 4.3, Flag Unit): INC/DEC by `n ∈ [1..16]`
do not affect C (FCW bit 7) and update Z (bit 6), S (bit 5), V (bit 4,
set on wrap across the signed boundary) and H (bit 2, carry from bit 11
into bit 12 for add, the dual borrow for sub).  The flag bits live in the
16-bit FCW word; a flag update sets or clears its single bit. -/

/-- Set (`v = true`) or clear (`v = false`) bit `b` of a 16-bit word. -/
def setFlag (fcw b : Nat) (v : Bool) : Nat :=
  if v then fcw ||| 1 <<< b else fcw &&& (65535 ^^^ 1 <<< b)

/-- Modelled from the spec: word INC by `n`.  Returns the result and the
updated FCW: Z, S, V, H written through `setFlag`; bit 7 (C) untouched. -/
def execINC (fcw a n : Nat) : Nat × Nat :=
  let r := (a + n) % 65536
  let v := !a.testBit 15 && r.testBit 15
  let hc := decide (a % 4096 + n ≥ 4096)
  (r, setFlag (setFlag (setFlag (setFlag fcw 6 (decide (r = 0))) 5 (r.testBit 15)) 4 v) 2 hc)

/-- Modelled from the spec: word DEC by `n` (intended for `n ≤ 16`). -/
def execDEC (fcw a n : Nat) : Nat × Nat :=
  let r := (a + 65536 - n) % 65536
  let v := a.testBit 15 && !r.testBit 15
  let hc := decide (a % 4096 < n)
  (r, setFlag (setFlag (setFlag (setFlag fcw 6 (decide (r = 0))) 5 (r.testBit 15)) 4 v) 2 hc)

/-! ### Block-instruction state machine

Modelled from the spec (section 4.5, "Block-instruction state machine"):
one iteration performs a transfer/compare step, decrements the 16-bit
count register, sets V iff the count became 0, and terminates iff the
instruction is the non-repeating form, or the repeating form with the
count at 0, or (CPxR forms only) the user condition matched the
just-compared pair; otherwise PC is rewound so the main loop re-executes
the instruction.  The transfer/compare payload is abstracted into the
condition stream `cond` (for CPxR: whether the pair compared at iteration
`i` satisfies the user condition). -/

inductive BlockForm
  | once
  | rep
  | repCP
deriving DecidableEq

structure BlockStep where
  count : Nat
  vFlag : Bool
  terminated : Bool
  pcRewound : Bool
deriving DecidableEq

/-- Termination test of one iteration, given the decremented count `c`. -/
def blockTerm (form : BlockForm) (condMatch : Bool) (c : Nat) : Bool :=
  match form with
  | BlockForm.once => true
  | BlockForm.rep => c == 0
  | BlockForm.repCP => (c == 0) || condMatch

def blockStep (form : BlockForm) (condMatch : Bool) (count : Nat) : BlockStep :=
  let c := (count + 65535) % 65536
  { count := c, vFlag := c == 0, terminated := blockTerm form condMatch c,
    pcRewound := !blockTerm form condMatch c }

/-- Iterate a block instruction: `i` is the iteration index, `fuel` a
bound on the number of re-executions.  Returns the final count register
and the index one past the last executed iteration. -/
def blockRun (form : BlockForm) (cond : Nat → Bool) : Nat → Nat → Nat → Nat × Nat
  | i, count, 0 => (count, i)
  | i, count, fuel + 1 =>
    let s := blockStep form (cond i) count
    if s.terminated then (s.count, i + 1)
    else blockRun form cond (i + 1) s.count fuel

/-! ### CPIR end-to-end scenario

Modelled from the spec (sections 4.5 and 8, scenario 6): `CPIR R3,@R4,R5`
with condition code `eq` compares R3 against the word at `@R4`, advances
R4 by 2 and decrements R5 by 1 each iteration (16-bit wraparound), and
stops when the compare matched (Z set) or the count reached 0.  The test
suite in the repository (`test_cpir_match`, src/unnamed/part_000) asserts
the same final state. -/

structure CpirResult where
  rs : Nat
  rn : Nat
  z : Bool
deriving DecidableEq

def cpirRun (mem : Mem) (rdv : Nat) : Nat → Nat → Nat → CpirResult
  | rs, rn, 0 => ⟨rs, rn, false⟩
  | rs, rn, fuel + 1 =>
    let matched := rdv == memReadWord mem rs
    let rs' := (rs + 2) % 65536
    let rn' := (rn + 65535) % 65536
    if matched || (rn' == 0) then ⟨rs', rn', matched⟩
    else cpirRun mem rdv rs' rn' fuel

/-- The scenario memory: big-endian words 0x1111 0x2222 0x3333 0x4444
0x5555 at byte addresses 0x1000..0x1009. -/
def cpirMem : Mem := fun a =>
  if a = 0x1000 then 0x11 else if a = 0x1001 then 0x11 else
  if a = 0x1002 then 0x22 else if a = 0x1003 then 0x22 else
  if a = 0x1004 then 0x33 else if a = 0x1005 then 0x33 else
  if a = 0x1006 then 0x44 else if a = 0x1007 then 0x44 else
  if a = 0x1008 then 0x55 else if a = 0x1009 then 0x55 else 0

/-! ### Theorems -/

/-- Mask a value with a byte mask shifted to position `k`:
keeping bits `k .. k+7` of `x` is extracting the byte `x / 2^k % 2^8`. -/
theorem and_byte_mask (x k : Nat) :
    x &&& ((2 ^ 8 - 1) * 2 ^ k) = x / 2 ^ k % 2 ^ 8 * 2 ^ k := by
  apply Nat.eq_of_testBit_eq
  intro i
  rw [Nat.testBit_and]
  rw [Nat.mul_comm (2 ^ 8 - 1) (2 ^ k), Nat.mul_comm (x / 2 ^ k % 2 ^ 8) (2 ^ k)]
  rw [Nat.testBit_mul_pow_two, Nat.testBit_mul_pow_two]
  rcases Nat.lt_or_ge i k with h | h
  · have : ¬ (i ≥ k) := by omega
    simp [this]
  · have hik : i ≥ k := h
    have hx : x / 2 ^ k = x >>> k := (Nat.shiftRight_eq_div_pow x k).symm
    rw [Nat.testBit_mod_two_pow, hx, Nat.testBit_shiftRight]
    have hk : k + (i - k) = i := by omega
    rw [hk]
    have h255 : Nat.testBit 255 (i - k) = decide (i - k < 8) := by
      have h : (255 : Nat) = 2 ^ 8 - 1 := by norm_num
      rw [h, Nat.testBit_two_pow_sub_one]
    simp [hik, Nat.testBit_two_pow_sub_one, h255, Bool.and_comm]

/-- ORing a value below `2^k` into a multiple of `2^k` is addition. -/
theorem lor_small_add (k a b : Nat) (hb : b < 2 ^ k) :
    b ||| a * 2 ^ k = a * 2 ^ k + b := by
  rw [Nat.lor_comm, Nat.mul_comm a (2 ^ k)]
  exact (Nat.mul_add_lt_is_or hb a).symm

/-- Normal form of the 16-bit byte swap: for a 16-bit value the two bytes
are exchanged. -/
theorem swapendian_int16_eq (v : Nat) (hv : v < 65536) :
    swapendian_int16 v = v % 256 * 256 + v / 256 := by
  unfold swapendian_int16
  rw [Nat.shiftRight_eq_div_pow, Nat.shiftLeft_eq]
  have hlt : v / 2 ^ 8 < 2 ^ 8 := by omega
  rw [lor_small_add 8 v (v / 2 ^ 8) hlt]
  omega

/-- Normal form of the 32-bit byte swap: for a 32-bit value the four bytes
are reversed. -/
theorem swapendian_int32_eq (v : Nat) (hv : v < 4294967296) :
    swapendian_int32 v =
      v % 256 * 16777216 + v / 256 % 256 * 65536 + v / 65536 % 256 * 256 + v / 16777216 := by
  unfold swapendian_int32
  rw [Nat.shiftRight_eq_div_pow, Nat.shiftRight_eq_div_pow, Nat.shiftLeft_eq, Nat.shiftLeft_eq]
  have e1 : v / 2 ^ 24 &&& 0xff = v / 2 ^ 24 % 2 ^ 8 := by
    have : (0xff : Nat) = 2 ^ 8 - 1 := by norm_num
    rw [this, Nat.and_pow_two_sub_one_eq_mod]
  have e2 : v / 2 ^ 8 &&& 0xff00 = v / 2 ^ 8 / 2 ^ 8 % 2 ^ 8 * 2 ^ 8 := by
    have : (0xff00 : Nat) = (2 ^ 8 - 1) * 2 ^ 8 := by norm_num
    rw [this, and_byte_mask]
  have e3 : v * 2 ^ 8 &&& 0xff0000 = v * 2 ^ 8 / 2 ^ 16 % 2 ^ 8 * 2 ^ 16 := by
    have : (0xff0000 : Nat) = (2 ^ 8 - 1) * 2 ^ 16 := by norm_num
    rw [this, and_byte_mask]
  have e4 : v * 2 ^ 24 &&& 0xff000000 = v * 2 ^ 24 / 2 ^ 24 % 2 ^ 8 * 2 ^ 24 := by
    have : (0xff000000 : Nat) = (2 ^ 8 - 1) * 2 ^ 24 := by norm_num
    rw [this, and_byte_mask]
  rw [e1, e2, e3, e4]
  rw [lor_small_add 8 (v / 2 ^ 8 / 2 ^ 8 % 2 ^ 8) (v / 2 ^ 24 % 2 ^ 8) (by omega)]
  rw [lor_small_add 16 (v * 2 ^ 8 / 2 ^ 16 % 2 ^ 8)
    (v / 2 ^ 8 / 2 ^ 8 % 2 ^ 8 * 2 ^ 8 + v / 2 ^ 24 % 2 ^ 8) (by omega)]
  rw [lor_small_add 24 (v * 2 ^ 24 / 2 ^ 24 % 2 ^ 8)
    (v * 2 ^ 8 / 2 ^ 16 % 2 ^ 8 * 2 ^ 16 +
      (v / 2 ^ 8 / 2 ^ 8 % 2 ^ 8 * 2 ^ 8 + v / 2 ^ 24 % 2 ^ 8)) (by omega)]
  omega

/-- Digits of a base-256 composition of four bytes. -/
theorem byte_digits (b0 b1 b2 b3 : Nat) (h0 : b0 < 256) (h1 : b1 < 256)
    (h2 : b2 < 256) (h3 : b3 < 256) :
    (b0 + 256 * b1 + 65536 * b2 + 16777216 * b3) % 256 = b0 ∧
    (b0 + 256 * b1 + 65536 * b2 + 16777216 * b3) / 256 % 256 = b1 ∧
    (b0 + 256 * b1 + 65536 * b2 + 16777216 * b3) / 65536 % 256 = b2 ∧
    (b0 + 256 * b1 + 65536 * b2 + 16777216 * b3) / 16777216 = b3 := by
  omega

/-- C8: `swapendian_int16` exchanges the two bytes of any 16-bit value and
`swapendian_int32` reverses the four bytes of any 32-bit value; consequently
both functions are involutions on their respective ranges. -/
theorem swapendian_exchanges_bytes_and_is_involution (v w : Nat)
    (hv : v < 65536) (hw : w < 4294967296) :
    swapendian_int16 v = v % 256 * 256 + v / 256 ∧
    swapendian_int32 w =
      w % 256 * 16777216 + w / 256 % 256 * 65536 + w / 65536 % 256 * 256 + w / 16777216 ∧
    swapendian_int16 (swapendian_int16 v) = v ∧
    swapendian_int32 (swapendian_int32 w) = w := by
  refine ⟨swapendian_int16_eq v hv, swapendian_int32_eq w hw, ?_, ?_⟩
  · rw [swapendian_int16_eq v hv, swapendian_int16_eq _ (by omega)]
    omega
  · obtain ⟨b0, b1, b2, b3, hb0, hb1, hb2, hb3, hw'⟩ :
        ∃ b0 b1 b2 b3, b0 < 256 ∧ b1 < 256 ∧ b2 < 256 ∧ b3 < 256 ∧
          w = b0 + 256 * b1 + 65536 * b2 + 16777216 * b3 :=
      ⟨w % 256, w / 256 % 256, w / 65536 % 256, w / 16777216,
        by omega, by omega, by omega, by omega, by omega⟩
    subst hw'
    rw [swapendian_int32_eq (b0 + 256 * b1 + 65536 * b2 + 16777216 * b3) (by omega)]
    obtain ⟨d1, d2, d3, d4⟩ := byte_digits b0 b1 b2 b3 hb0 hb1 hb2 hb3
    rw [d1, d2, d3, d4]
    have hY : b0 * 16777216 + b1 * 65536 + b2 * 256 + b3 =
        b3 + 256 * b2 + 65536 * b1 + 16777216 * b0 := by ring
    rw [hY, swapendian_int32_eq (b3 + 256 * b2 + 65536 * b1 + 16777216 * b0) (by omega)]
    obtain ⟨g1, g2, g3, g4⟩ := byte_digits b3 b2 b1 b0 hb3 hb2 hb1 hb0
    rw [g1, g2, g3, g4]
    ring

/-- Witness for C8 at the concrete inputs `0x1234` and `0x11223344`. -/
theorem swapendian_exchanges_bytes_witness :
    swapendian_int16 0x1234 = 0x3412 ∧ swapendian_int32 0x11223344 = 0x44332211 :=
  ⟨((swapendian_exchanges_bytes_and_is_involution 0x1234 0x11223344
      (by decide) (by decide)).1).trans (by decide),
   ((swapendian_exchanges_bytes_and_is_involution 0x1234 0x11223344
      (by decide) (by decide)).2.1).trans (by decide)⟩

/-- C9: `string_format` always returns at most 255 bytes; short output is
returned unchanged, longer output is silently truncated to exactly 255
bytes (the 255-byte front of the formatted text), never extended. -/
theorem string_format_truncates (formatted : List Nat) :
    (string_format formatted).length ≤ 255 ∧
    (formatted.length ≤ 255 → string_format formatted = formatted) ∧
    (255 < formatted.length →
      (string_format formatted).length = 255 ∧
      string_format formatted = formatted.take 255) := by
  refine ⟨?_, ?_, ?_⟩
  · simp [string_format]
  · intro h
    unfold string_format
    exact List.take_of_length_le h
  · intro h
    refine ⟨?_, rfl⟩
    simp [string_format]
    omega

/-- Witness for C9: 300 bytes of output come back truncated to 255. -/
theorem string_format_truncates_witness :
    (string_format (List.replicate 300 0)).length = 255 :=
  ((string_format_truncates (List.replicate 300 0)).2.2
    (by rw [List.length_replicate]; omega)).1

/-- C10: both accessors of the stub device-callback array return 0 for
every index and every argument, regardless of the default value passed to
`resolve_all_safe`. -/
theorem devcb_read_array_always_zero (d : Nat) (index param : Int) :
    (devcb_read_array.init.resolve_all_safe d).opIndex index = 0 ∧
    (devcb_read_array.init.resolve_all_safe d).opCall param = 0 :=
  ⟨rfl, rfl⟩

/-- Concrete values of the byte-register index map (for simp). -/
@[simp] theorem rbIndex_val0 : rbIndex 0 = 3 := by decide

@[simp] theorem rbIndex_val1 : rbIndex 1 = 1 := by decide

@[simp] theorem rbIndex_val2 : rbIndex 2 = 7 := by decide

@[simp] theorem rbIndex_val3 : rbIndex 3 = 5 := by decide

@[simp] theorem rbIndex_val4 : rbIndex 4 = 11 := by decide

@[simp] theorem rbIndex_val5 : rbIndex 5 = 9 := by decide

@[simp] theorem rbIndex_val6 : rbIndex 6 = 15 := by decide

@[simp] theorem rbIndex_val7 : rbIndex 7 = 13 := by decide

@[simp] theorem rbIndex_val8 : rbIndex 8 = 2 := by decide

@[simp] theorem rbIndex_val9 : rbIndex 9 = 0 := by decide

@[simp] theorem rbIndex_val10 : rbIndex 10 = 6 := by decide

@[simp] theorem rbIndex_val11 : rbIndex 11 = 4 := by decide

@[simp] theorem rbIndex_val12 : rbIndex 12 = 10 := by decide

@[simp] theorem rbIndex_val13 : rbIndex 13 = 8 := by decide

@[simp] theorem rbIndex_val14 : rbIndex 14 = 14 := by decide

@[simp] theorem rbIndex_val15 : rbIndex 15 = 12 := by decide

/-- Concrete values of the word-index map on the register range (for simp). -/
@[simp] theorem b4xor_val0 : BYTE4_XOR_BE 0 = 1 := by decide

@[simp] theorem b4xor_val1 : BYTE4_XOR_BE 1 = 0 := by decide

@[simp] theorem b4xor_val2 : BYTE4_XOR_BE 2 = 3 := by decide

@[simp] theorem b4xor_val3 : BYTE4_XOR_BE 3 = 2 := by decide

@[simp] theorem b4xor_val4 : BYTE4_XOR_BE 4 = 5 := by decide

@[simp] theorem b4xor_val5 : BYTE4_XOR_BE 5 = 4 := by decide

@[simp] theorem b4xor_val6 : BYTE4_XOR_BE 6 = 7 := by decide

@[simp] theorem b4xor_val7 : BYTE4_XOR_BE 7 = 6 := by decide

@[simp] theorem b4xor_val8 : BYTE4_XOR_BE 8 = 9 := by decide

@[simp] theorem b4xor_val9 : BYTE4_XOR_BE 9 = 8 := by decide

@[simp] theorem b4xor_val10 : BYTE4_XOR_BE 10 = 11 := by decide

@[simp] theorem b4xor_val11 : BYTE4_XOR_BE 11 = 10 := by decide

@[simp] theorem b4xor_val12 : BYTE4_XOR_BE 12 = 13 := by decide

@[simp] theorem b4xor_val13 : BYTE4_XOR_BE 13 = 12 := by decide

@[simp] theorem b4xor_val14 : BYTE4_XOR_BE 14 = 15 := by decide

@[simp] theorem b4xor_val15 : BYTE4_XOR_BE 15 = 14 := by decide

/-- Writing host word `i` and reading it back yields the value mod 2^16. -/
theorem hostW_write_same (r : Regs) (i v : Nat) :
    hostW (hostW_write r i v) i = v % 65536 := by
  simp only [hostW, hostW_write, updByte]
  split_ifs <;> omega

/-- Writing host word `i` leaves every other host word untouched. -/
theorem hostW_write_other (r : Regs) (i j v : Nat) (h : j ≠ i) :
    hostW (hostW_write r i v) j = hostW r j := by
  simp only [hostW, hostW_write, updByte]
  split_ifs <;> omega

theorem BYTE4_XOR_BE_inj (m n : Nat) (h : BYTE4_XOR_BE m = BYTE4_XOR_BE n) :
    m = n := by
  unfold BYTE4_XOR_BE at h
  have h2 : m ^^^ 1 ^^^ 1 = n ^^^ 1 ^^^ 1 := by rw [h]
  rwa [Nat.xor_cancel_right, Nat.xor_cancel_right] at h2

/-- A word write is read back (truncated to 16 bits) through the word view. -/
theorem RW_write_read_same (r : Regs) (n v : Nat) :
    RW_read (RW_write r n v) n = v % 65536 := by
  unfold RW_read RW_write
  exact hostW_write_same r (BYTE4_XOR_BE n) v

/-- A word write leaves every other word register untouched. -/
theorem RW_write_read_other (r : Regs) (n m v : Nat) (h : m ≠ n) :
    RW_read (RW_write r n v) m = RW_read r m := by
  unfold RW_read RW_write
  exact hostW_write_other r (BYTE4_XOR_BE n) (BYTE4_XOR_BE m) v
    (fun hc => h (BYTE4_XOR_BE_inj m n hc))

/-- In every state, a word register is its high byte register times 256
plus its low byte register. -/
theorem RW_read_bytes (r : Regs) (n : Nat) (hn : n < 8) :
    RW_read r n = RH_byte_read r n * 256 + RL_byte_read r n := by
  interval_cases n <;>
    (simp [RW_read, RH_byte_read, RL_byte_read, RB_read, hostW]; try ring)

/-- In every state, a long register is its high word register times 2^16
plus the following word register. -/
theorem RL_read_words (r : Regs) (k : Nat) (he : k % 2 = 0) (hk : k < 16) :
    RL_read r k = RW_read r k * 65536 + RW_read r (k + 1) := by
  interval_cases k <;> first
    | omega
    | (simp [RL_read, RW_read, hostL, hostW, BYTE_XOR_BE]; try ring)

/-- A long write is observed by the two overlapping word registers as the
high and low 16-bit halves, and is read back through the long view. -/
theorem RL_write_words (r : Regs) (k v : Nat) (he : k % 2 = 0) (hk : k < 16)
    (hv : v < 4294967296) :
    RW_read (RL_write r k v) k = v / 65536 ∧
    RW_read (RL_write r k v) (k + 1) = v % 65536 ∧
    RL_read (RL_write r k v) k = v := by
  interval_cases k <;> first
    | omega
    | (refine ⟨?_, ?_, ?_⟩ <;>
        (simp [RL_read, RW_read, RL_write, hostL, hostL_write, hostW,
          updByte, BYTE_XOR_BE]; omega))

/-- A word write is observed by the two overlapping byte registers as the
high and low bytes. -/
theorem RW_write_bytes (r : Regs) (n W : Nat) (hn : n < 8) (hW : W < 65536) :
    RH_byte_read (RW_write r n W) n = W >>> 8 ∧
    RL_byte_read (RW_write r n W) n = W &&& 0xFF := by
  have hsr : W >>> 8 = W / 256 := by rw [Nat.shiftRight_eq_div_pow]
  have hand : W &&& 0xFF = W % 256 := by
    have h : (0xFF : Nat) = 2 ^ 8 - 1 := by norm_num
    rw [h, Nat.and_pow_two_sub_one_eq_mod]
  rw [hsr, hand]
  constructor <;> interval_cases n <;>
    (simp [RH_byte_read, RL_byte_read, RB_read, RW_write, hostW_write, updByte];
     try omega)

/-- A byte write is read back through the byte view and observed by the
overlapping word register as the corresponding byte, the other byte of the
word being untouched. -/
theorem RB_write_word (r : Regs) (n B : Nat) (hn : n < 8) (hB : B < 256) :
    RH_byte_read (RB_write r n B) n = B ∧
    RL_byte_read (RB_write r (n + 8) B) n = B ∧
    RW_read (RB_write r n B) n = B * 256 + RL_byte_read r n ∧
    RW_read (RB_write r (n + 8) B) n = RH_byte_read r n * 256 + B := by
  interval_cases n <;>
    (refine ⟨?_, ?_, ?_, ?_⟩ <;>
      (simp [RH_byte_read, RL_byte_read, RB_read, RB_write, RW_read, hostW,
        updByte]; omega))

/-- Writing the high byte then the low byte of a word rebuilds the word. -/
theorem RB_write_reconstruct (r : Regs) (n W : Nat) (hn : n < 8) (hW : W < 65536) :
    RW_read (RB_write (RB_write r n (W >>> 8)) (n + 8) (W &&& 0xFF)) n = W := by
  have hsr : W >>> 8 = W / 256 := by rw [Nat.shiftRight_eq_div_pow]
  have hand : W &&& 0xFF = W % 256 := by
    have h : (0xFF : Nat) = 2 ^ 8 - 1 := by norm_num
    rw [h, Nat.and_pow_two_sub_one_eq_mod]
  rw [hsr, hand]
  interval_cases n <;>
    (simp [RW_read, RB_write, hostW, updByte]; omega)

/-- A quad write is observed by the four overlapping word registers as the
four 16-bit slices. -/
theorem RQ_write_word_reads (r : Regs) (q Q : Nat)
    (hQ : Q < 18446744073709551616) :
    RW_read (RQ_write r q Q) q = Q / 281474976710656 ∧
    RW_read (RQ_write r q Q) (q + 1) = Q / 4294967296 % 65536 ∧
    RW_read (RQ_write r q Q) (q + 2) = Q / 65536 % 65536 ∧
    RW_read (RQ_write r q Q) (q + 3) = Q % 65536 := by
  unfold RQ_write
  refine ⟨?_, ?_, ?_, ?_⟩
  · rw [RW_write_read_other _ _ _ _ (by omega), RW_write_read_other _ _ _ _ (by omega),
      RW_write_read_other _ _ _ _ (by omega), RW_write_read_same]
    omega
  · rw [RW_write_read_other _ _ _ _ (by omega), RW_write_read_other _ _ _ _ (by omega),
      RW_write_read_same]
  · rw [RW_write_read_other _ _ _ _ (by omega), RW_write_read_same]
  · exact RW_write_read_same _ _ _

/-- A quad write is read back through the quad view and observed by the
two overlapping long registers as the high and low 32-bit halves. -/
theorem RQ_write_reads (r : Regs) (q Q : Nat) (hq : q < 16) (hq4 : q % 4 = 0)
    (hQ : Q < 18446744073709551616) :
    RQ_read (RQ_write r q Q) q = Q ∧
    RL_read (RQ_write r q Q) q = Q >>> 32 ∧
    RL_read (RQ_write r q Q) (q + 2) = Q &&& 0xFFFFFFFF := by
  obtain ⟨h1, h2, h3, h4⟩ := RQ_write_word_reads r q Q hQ
  have hsr : Q >>> 32 = Q / 4294967296 := by rw [Nat.shiftRight_eq_div_pow]
  have hand : Q &&& 0xFFFFFFFF = Q % 4294967296 := by
    have h : (0xFFFFFFFF : Nat) = 2 ^ 32 - 1 := by norm_num
    rw [h, Nat.and_pow_two_sub_one_eq_mod]
  have h23 : q + 2 + 1 = q + 3 := by omega
  refine ⟨?_, ?_, ?_⟩
  · unfold RQ_read
    rw [h1, h2, h3, h4]
    omega
  · rw [RL_read_words (RQ_write r q Q) q (by omega) hq, h1, h2, hsr]
    omega
  · rw [RL_read_words (RQ_write r q Q) (q + 2) (by omega) (by omega), h23, h3, h4,
      hand]
    omega

/-- In every state, a quad register is its high long register times 2^32
plus the following long register. -/
theorem RQ_read_longs (r : Regs) (q : Nat) (hq : q < 16) (hq4 : q % 4 = 0) :
    RQ_read r q = RL_read r q * 4294967296 + RL_read r (q + 2) := by
  have h23 : q + 2 + 1 = q + 3 := by omega
  rw [RL_read_words r q (by omega) hq, RL_read_words r (q + 2) (by omega) (by omega),
    h23]
  unfold RQ_read
  ring

/-- The claim's concrete slice table: after writing RR0 = 0x11223344, the
overlapping word and byte views observe the corresponding slices. -/
theorem RL_write_RR0_table (r : Regs) :
    RW_read (RL_write r 0 0x11223344) 0 = 0x1122 ∧
    RW_read (RL_write r 0 0x11223344) 1 = 0x3344 ∧
    RH_byte_read (RL_write r 0 0x11223344) 0 = 0x11 ∧
    RL_byte_read (RL_write r 0 0x11223344) 0 = 0x22 ∧
    RH_byte_read (RL_write r 0 0x11223344) 1 = 0x33 ∧
    RL_byte_read (RL_write r 0 0x11223344) 1 = 0x44 := by
  refine ⟨?_, ?_, ?_, ?_, ?_, ?_⟩ <;>
    simp [RW_read, RL_write, RH_byte_read, RL_byte_read, RB_read,
      hostL_write, hostW, updByte, BYTE_XOR_BE]

/-- C3: register-file aliasing, universally over every write sequence and
every view.  Let `S` be the register file after any sequence of writes
through arbitrary views; extending the sequence by one more write folds as
a single `applyWrite` step, and after the most recent write through any
view every overlapping view reads the corresponding slice of the value
just written: a word write is seen by the word view and the two byte
views, a pair of byte writes rebuilds the word, a long write is seen by
the long view and the two word views, a quad write is seen by the quad,
long and word views, unrelated word registers are untouched, and the wider
views always decompose into the narrower ones.  In particular the claim's
RR0 = 0x11223344 slice table holds over `S`. -/
theorem register_file_aliasing
    (r0 : Regs) (ws : List RegWrite) (w : RegWrite) (S : Regs)
    (hS : S = applyWrites r0 ws)
    (n k q W B V Q : Nat)
    (hn : n < 8) (hW : W < 65536) (hB : B < 256)
    (hke : k % 2 = 0) (hk : k < 16) (hV : V < 4294967296)
    (hq4 : q % 4 = 0) (hq : q < 16) (hQ : Q < 18446744073709551616) :
    applyWrites r0 (ws ++ [w]) = applyWrite S w ∧
    RW_read S n = RH_byte_read S n * 256 + RL_byte_read S n ∧
    RL_read S k = RW_read S k * 65536 + RW_read S (k + 1) ∧
    RQ_read S q = RL_read S q * 4294967296 + RL_read S (q + 2) ∧
    RW_read (RW_write S n W) n = W ∧
    RH_byte_read (RW_write S n W) n = W >>> 8 ∧
    RL_byte_read (RW_write S n W) n = W &&& 0xFF ∧
    (∀ m, m ≠ n → RW_read (RW_write S n W) m = RW_read S m) ∧
    RH_byte_read (RB_write S n B) n = B ∧
    RL_byte_read (RB_write S (n + 8) B) n = B ∧
    RW_read (RB_write S n B) n = B * 256 + RL_byte_read S n ∧
    RW_read (RB_write S (n + 8) B) n = RH_byte_read S n * 256 + B ∧
    RW_read (RB_write (RB_write S n (W >>> 8)) (n + 8) (W &&& 0xFF)) n = W ∧
    RW_read (RL_write S k V) k = V >>> 16 ∧
    RW_read (RL_write S k V) (k + 1) = V &&& 0xFFFF ∧
    RL_read (RL_write S k V) k = V ∧
    RQ_read (RQ_write S q Q) q = Q ∧
    RL_read (RQ_write S q Q) q = Q >>> 32 ∧
    RL_read (RQ_write S q Q) (q + 2) = Q &&& 0xFFFFFFFF ∧
    RW_read (RQ_write S q Q) q = Q >>> 48 ∧
    RW_read (RQ_write S q Q) (q + 3) = Q &&& 0xFFFF ∧
    RW_read (RL_write S 0 0x11223344) 0 = 0x1122 ∧
    RW_read (RL_write S 0 0x11223344) 1 = 0x3344 ∧
    RH_byte_read (RL_write S 0 0x11223344) 0 = 0x11 ∧
    RL_byte_read (RL_write S 0 0x11223344) 0 = 0x22 ∧
    RH_byte_read (RL_write S 0 0x11223344) 1 = 0x33 ∧
    RL_byte_read (RL_write S 0 0x11223344) 1 = 0x44 := by
  obtain ⟨hRB1, hRB2, hRB3, hRB4⟩ := RB_write_word S n B hn hB
  obtain ⟨hWb1, hWb2⟩ := RW_write_bytes S n W hn hW
  obtain ⟨hL1, hL2, hL3⟩ := RL_write_words S k V hke hk hV
  obtain ⟨hQr1, hQr2, hQr3⟩ := RQ_write_reads S q Q hq hq4 hQ
  obtain ⟨hQw1, hQw2, hQw3, hQw4⟩ := RQ_write_word_reads S q Q hQ
  obtain ⟨hT1, hT2, hT3, hT4, hT5, hT6⟩ := RL_write_RR0_table S
  have hV16 : V >>> 16 = V / 65536 := by rw [Nat.shiftRight_eq_div_pow]
  have hVand : V &&& 0xFFFF = V % 65536 := by
    have h : (0xFFFF : Nat) = 2 ^ 16 - 1 := by norm_num
    rw [h, Nat.and_pow_two_sub_one_eq_mod]
  have hQ48 : Q >>> 48 = Q / 281474976710656 := by rw [Nat.shiftRight_eq_div_pow]
  have hQand : Q &&& 0xFFFF = Q % 65536 := by
    have h : (0xFFFF : Nat) = 2 ^ 16 - 1 := by norm_num
    rw [h, Nat.and_pow_two_sub_one_eq_mod]
  rw [← hV16] at hL1
  rw [← hVand] at hL2
  rw [← hQ48] at hQw1
  rw [← hQand] at hQw4
  refine ⟨?_, RW_read_bytes S n hn, RL_read_words S k hke hk,
    RQ_read_longs S q hq hq4,
    (RW_write_read_same S n W).trans (Nat.mod_eq_of_lt hW), hWb1, hWb2,
    fun m hm => RW_write_read_other S n m W hm,
    hRB1, hRB2, hRB3, hRB4, RB_write_reconstruct S n W hn hW,
    hL1, hL2, hL3, hQr1, hQr2, hQr3, hQw1, hQw4,
    hT1, hT2, hT3, hT4, hT5, hT6⟩
  rw [hS]
  simp [applyWrites]

/-- Witness for C3: the write sequence [RW(0) := 0x1234], next write a
byte, with n = 3, k = 2, q = 4, W = 0xABCD, B = 0x7F, V = 0x12345678,
Q = 0x1122334455667788: the word readback and the quad readback hold. -/
theorem register_file_aliasing_witness :
    RW_read (RW_write (applyWrites (fun _ => 0) [RegWrite.word 0 0x1234]) 3 0xABCD) 3
      = 0xABCD ∧
    RQ_read (RQ_write (applyWrites (fun _ => 0) [RegWrite.word 0 0x1234]) 4
      0x1122334455667788) 4 = 0x1122334455667788 := by
  obtain ⟨-, -, -, -, h5, -, -, -, -, -, -, -, -, -, -, -, h17, -, -, -, -, -, -, -,
      -, -, -⟩ :=
    register_file_aliasing (fun _ => 0) [RegWrite.word 0 0x1234]
      (RegWrite.byte 0 0xAB) (applyWrites (fun _ => 0) [RegWrite.word 0 0x1234]) rfl
      3 2 4 0xABCD 0x7F 0x12345678 0x1122334455667788
      (by decide) (by decide) (by decide) (by decide) (by decide) (by decide)
      (by decide) (by decide) (by decide)
  exact ⟨h5, h17⟩

/-- C1 counterexample: the claimed address formula FCW = PSAP + 2·T fails
against the repository's vector table already at PSAP = 0, T = 1
(extended-instruction): the table places that FCW word at 6, not at 2·1.  -/
theorem vector_offset_claim_counterexample :
    vectorFCWOffset 1 ≠ 0 + 2 * 1 := by decide

/-- C1 (amended): for every trap source T < 8, the trap entry loads the
new FCW from the word at PSAP + 4·T + 2 and the new PC from the word at
PSAP + 4·T + 4 (each vector entry is four bytes, offset by the two
reserved bytes at PSAP). -/
theorem trap_entry_vector_addresses (t : Nat) (ht : t < 8) (st : CPUState) (mem : Mem) :
    (trapEntry t st mem).1.fcw = memReadWord (trapEntry t st mem).2 (st.psap + 4 * t + 2) ∧
    (trapEntry t st mem).1.pc = memReadWord (trapEntry t st mem).2 (st.psap + 4 * t + 4) := by
  have h1 : vectorFCWOffset t = 4 * t + 2 := by interval_cases t <;> rfl
  have h2 : vectorPCOffset t = 4 * t + 4 := by interval_cases t <;> rfl
  constructor
  · have e : (trapEntry t st mem).1.fcw =
        memReadWord (trapEntry t st mem).2 (st.psap + vectorFCWOffset t) := rfl
    rw [e, h1]
    congr 1
    try omega
  · have e : (trapEntry t st mem).1.pc =
        memReadWord (trapEntry t st mem).2 (st.psap + vectorPCOffset t) := rfl
    rw [e, h2]
    congr 1
    try omega

/-- Witness for C1 (amended) at T = 2 on a concrete state. -/
theorem trap_entry_vector_addresses_witness :
    (trapEntry 2 ⟨0x100, 0x4000, 0, 0, 0, false, false, fun _ => 0x1E00⟩ (fun _ => 0)).1.fcw =
      memReadWord
        (trapEntry 2 ⟨0x100, 0x4000, 0, 0, 0, false, false, fun _ => 0x1E00⟩ (fun _ => 0)).2
        (0 + 4 * 2 + 2) :=
  (trap_entry_vector_addresses 2 (by decide)
    ⟨0x100, 0x4000, 0, 0, 0, false, false, fun _ => 0x1E00⟩ (fun _ => 0)).1

/-- C2: reset (with PSAP = 0) loads the FCW from the memory word at
address 2 and the PC from the word at address 4, clears the
pending-interrupt latches, the halt flag and the refresh register, and
leaves the general registers untouched. -/
theorem reset_loads_vector_zero (st : CPUState) (mem : Mem) (h : st.psap = 0) :
    (reset st mem).fcw = memReadWord mem 2 ∧
    (reset st mem).pc = memReadWord mem 4 ∧
    (reset st mem).irq_req = 0 ∧
    (reset st mem).nmi_pending = false ∧
    (reset st mem).halt = false ∧
    (reset st mem).refresh = 0 ∧
    (reset st mem).regs = st.regs := by
  unfold reset
  simp [h, vectorFCWOffset, vectorPCOffset]

/-- Witness for C2 on a concrete dirty state. -/
theorem reset_loads_vector_zero_witness :
    (reset ⟨0xAAAA, 0xFFFF, 0, 5, 3, true, true, fun _ => 7⟩ (fun _ => 0)).halt = false :=
  (reset_loads_vector_zero ⟨0xAAAA, 0xFFFF, 0, 5, 3, true, true, fun _ => 7⟩
    (fun _ => 0) rfl).2.2.2.2.1

set_option maxRecDepth 8000

/-- C6: with FCW bit 14 (system mode) clear, HALT does not set the halt
flag; the post-state is exactly the privileged-instruction trap entry
(source 2): the halt flag is unchanged, the new FCW and PC come from the
privileged-instruction vector words (PSAP + 0x0A / PSAP + 0x0C), the old
PC and FCW were pushed (PC at SP − 4, FCW at SP − 2, modulo `2^16`), and
R15 ends at SP − 4. -/
theorem halt_normal_mode_is_priv_trap (st : CPUState) (mem : Mem)
    (h : st.fcw.testBit 14 = false) :
    execHALT st mem = trapEntry 2 st mem ∧
    (execHALT st mem).1.halt = st.halt ∧
    (execHALT st mem).1.fcw = memReadWord (execHALT st mem).2 (st.psap + 0x0A) ∧
    (execHALT st mem).1.pc = memReadWord (execHALT st mem).2 (st.psap + 0x0C) ∧
    memReadWord (execHALT st mem).2 ((st.regs 15 + 65532) % 65536) = st.pc % 65536 ∧
    memReadWord (execHALT st mem).2 ((st.regs 15 + 65534) % 65536) = st.fcw % 65536 ∧
    (execHALT st mem).1.regs 15 = (st.regs 15 + 65532) % 65536 := by
  have he : execHALT st mem = trapEntry 2 st mem := by
    unfold execHALT
    rw [h]
    simp
  rw [he]
  refine ⟨rfl, ?_, ?_, ?_, ?_, ?_, ?_⟩
  · unfold trapEntry
    rfl
  · simp [trapEntry, vectorFCWOffset]
  · simp [trapEntry, vectorPCOffset]
  · simp only [trapEntry, memWriteWord, memWriteByte, memReadWord]
    split_ifs <;> omega
  · simp only [trapEntry, memWriteWord, memWriteByte, memReadWord]
    split_ifs <;> omega
  · simp only [trapEntry, updReg]
    split_ifs <;> omega

/-- Witness for C6 on a concrete normal-mode state. -/
theorem halt_normal_mode_witness :
    (execHALT ⟨0x200, 0x0080, 0, 0, 0, false, false, fun _ => 0x1E00⟩ (fun _ => 0)).1.halt =
      false :=
  (halt_normal_mode_is_priv_trap ⟨0x200, 0x0080, 0, 0, 0, false, false, fun _ => 0x1E00⟩
    (fun _ => 0) (by decide)).2.1

theorem testBit_setFlag_self (f b : Nat) (v : Bool) (hb : b < 16) :
    (setFlag f b v).testBit b = v := by
  unfold setFlag
  have hpow : (1 : Nat) <<< b = 2 ^ b := by rw [Nat.shiftLeft_eq, Nat.one_mul]
  have h65535 : Nat.testBit 65535 b = true := by
    have h : (65535 : Nat) = 2 ^ 16 - 1 := by norm_num
    rw [h, Nat.testBit_two_pow_sub_one]
    simp [hb]
  cases v with
  | true => simp [hpow, Nat.testBit_lor, Nat.testBit_two_pow_self]
  | false => simp [hpow, Nat.testBit_and, Nat.testBit_xor, Nat.testBit_two_pow_self, h65535]

theorem testBit_setFlag_other (f b i : Nat) (v : Bool) (hf : f < 65536) (hne : i ≠ b) :
    (setFlag f b v).testBit i = f.testBit i := by
  unfold setFlag
  have hpow : (1 : Nat) <<< b = 2 ^ b := by rw [Nat.shiftLeft_eq, Nat.one_mul]
  have hbp : Nat.testBit (2 ^ b) i = false := Nat.testBit_two_pow_of_ne fun hh => hne hh.symm
  have h65535 : Nat.testBit 65535 i = decide (i < 16) := by
    have h : (65535 : Nat) = 2 ^ 16 - 1 := by norm_num
    rw [h, Nat.testBit_two_pow_sub_one]
  rcases Nat.lt_or_ge i 16 with hi | hi
  · cases v with
    | true => simp [hpow, Nat.testBit_lor, hbp]
    | false => simp [hpow, Nat.testBit_and, Nat.testBit_xor, hbp, h65535, hi]
  · have hfi : f.testBit i = false := by
      apply Nat.testBit_lt_two_pow
      calc f < 65536 := hf
        _ = 2 ^ 16 := by norm_num
        _ ≤ 2 ^ i := Nat.pow_le_pow_right (by norm_num) hi
    cases v with
    | true => simp [hpow, Nat.testBit_lor, hbp, hfi]
    | false => simp [hpow, Nat.testBit_and, hfi]

theorem setFlag_lt (f b : Nat) (v : Bool) (hf : f < 65536) (hb : b < 16) :
    setFlag f b v < 65536 := by
  unfold setFlag
  have hpow : (1 : Nat) <<< b = 2 ^ b := by rw [Nat.shiftLeft_eq, Nat.one_mul]
  cases v with
  | true =>
    rw [if_pos rfl, hpow]
    have h16 : (2 : Nat) ^ 16 = 65536 := by norm_num
    have h1 : f < 2 ^ 16 := by rw [h16]; exact hf
    have h2 : 2 ^ b < 2 ^ 16 := Nat.pow_lt_pow_right (by norm_num) hb
    have h3 := Nat.or_lt_two_pow h1 h2
    rw [h16] at h3
    exact h3
  | false =>
    rw [if_neg (by decide)]
    exact Nat.lt_of_le_of_lt Nat.and_le_left hf

/-- Writing Z, S, V, H through the `setFlag` chain leaves bit 7 (C) as it
was and places each flag at its own bit. -/
theorem flagChain (fcw : Nat) (z s v hc : Bool) (hf : fcw < 65536) :
    (setFlag (setFlag (setFlag (setFlag fcw 6 z) 5 s) 4 v) 2 hc).testBit 7 = fcw.testBit 7 ∧
    (setFlag (setFlag (setFlag (setFlag fcw 6 z) 5 s) 4 v) 2 hc).testBit 6 = z ∧
    (setFlag (setFlag (setFlag (setFlag fcw 6 z) 5 s) 4 v) 2 hc).testBit 5 = s ∧
    (setFlag (setFlag (setFlag (setFlag fcw 6 z) 5 s) 4 v) 2 hc).testBit 4 = v ∧
    (setFlag (setFlag (setFlag (setFlag fcw 6 z) 5 s) 4 v) 2 hc).testBit 2 = hc ∧
    setFlag (setFlag (setFlag (setFlag fcw 6 z) 5 s) 4 v) 2 hc < 65536 := by
  have h1 : setFlag fcw 6 z < 65536 := setFlag_lt fcw 6 z hf (by norm_num)
  have h2 : setFlag (setFlag fcw 6 z) 5 s < 65536 := setFlag_lt _ 5 s h1 (by norm_num)
  have h3 : setFlag (setFlag (setFlag fcw 6 z) 5 s) 4 v < 65536 :=
    setFlag_lt _ 4 v h2 (by norm_num)
  refine ⟨?_, ?_, ?_, ?_, ?_, setFlag_lt _ 2 hc h3 (by norm_num)⟩
  · rw [testBit_setFlag_other _ 2 7 hc h3 (by decide),
      testBit_setFlag_other _ 4 7 v h2 (by decide),
      testBit_setFlag_other _ 5 7 s h1 (by decide),
      testBit_setFlag_other _ 6 7 z hf (by decide)]
  · rw [testBit_setFlag_other _ 2 6 hc h3 (by decide),
      testBit_setFlag_other _ 4 6 v h2 (by decide),
      testBit_setFlag_other _ 5 6 s h1 (by decide),
      testBit_setFlag_self fcw 6 z (by norm_num)]
  · rw [testBit_setFlag_other _ 2 5 hc h3 (by decide),
      testBit_setFlag_other _ 4 5 v h2 (by decide),
      testBit_setFlag_self _ 5 s (by norm_num)]
  · rw [testBit_setFlag_other _ 2 4 hc h3 (by decide),
      testBit_setFlag_self _ 4 v (by norm_num)]
  · rw [testBit_setFlag_self _ 2 hc (by norm_num)]

/-- C7: for every 16-bit operand, any FCW and any `n ∈ [1..16]`, INC and
DEC leave the C flag (bit 7) unchanged while writing Z, S, V and H: Z is
set iff the result is zero, S is bit 15 of the result, V is set exactly
on wrap across the signed boundary (positive → negative for INC,
negative → positive for DEC), and H is the half-carry (resp. borrow) at
bit 12. -/
theorem inc_dec_flags (fcw a n : Nat) (hf : fcw < 65536) (ha : a < 65536)
    (hn1 : 1 ≤ n) (hn2 : n ≤ 16) :
    ((execINC fcw a n).2.testBit 7 = fcw.testBit 7 ∧
     (execINC fcw a n).2.testBit 6 = decide ((a + n) % 65536 = 0) ∧
     (execINC fcw a n).2.testBit 5 = ((a + n) % 65536).testBit 15 ∧
     (execINC fcw a n).2.testBit 4 = (!a.testBit 15 && ((a + n) % 65536).testBit 15) ∧
     (execINC fcw a n).2.testBit 2 = decide (a % 4096 + n ≥ 4096) ∧
     (execINC fcw a n).1 = (a + n) % 65536) ∧
    ((execDEC fcw a n).2.testBit 7 = fcw.testBit 7 ∧
     (execDEC fcw a n).2.testBit 6 = decide ((a + 65536 - n) % 65536 = 0) ∧
     (execDEC fcw a n).2.testBit 5 = ((a + 65536 - n) % 65536).testBit 15 ∧
     (execDEC fcw a n).2.testBit 4 = (a.testBit 15 && !((a + 65536 - n) % 65536).testBit 15) ∧
     (execDEC fcw a n).2.testBit 2 = decide (a % 4096 < n) ∧
     (execDEC fcw a n).1 = (a + 65536 - n) % 65536) := by
  constructor
  · have e2 : (execINC fcw a n).2 =
        setFlag (setFlag (setFlag (setFlag fcw 6 (decide ((a + n) % 65536 = 0))) 5
          (((a + n) % 65536).testBit 15)) 4
            (!a.testBit 15 && ((a + n) % 65536).testBit 15)) 2
              (decide (a % 4096 + n ≥ 4096)) := rfl
    have e1 : (execINC fcw a n).1 = (a + n) % 65536 := rfl
    rw [e1, e2]
    obtain ⟨c1, c2, c3, c4, c5, _⟩ := flagChain fcw (decide ((a + n) % 65536 = 0))
      (((a + n) % 65536).testBit 15)
      (!a.testBit 15 && ((a + n) % 65536).testBit 15)
      (decide (a % 4096 + n ≥ 4096)) hf
    exact ⟨c1, c2, c3, c4, c5, rfl⟩
  · have e2 : (execDEC fcw a n).2 =
        setFlag (setFlag (setFlag (setFlag fcw 6 (decide ((a + 65536 - n) % 65536 = 0))) 5
          (((a + 65536 - n) % 65536).testBit 15)) 4
            (a.testBit 15 && !((a + 65536 - n) % 65536).testBit 15)) 2
              (decide (a % 4096 < n)) := rfl
    have e1 : (execDEC fcw a n).1 = (a + 65536 - n) % 65536 := rfl
    rw [e1, e2]
    obtain ⟨c1, c2, c3, c4, c5, _⟩ := flagChain fcw (decide ((a + 65536 - n) % 65536 = 0))
      (((a + 65536 - n) % 65536).testBit 15)
      (a.testBit 15 && !((a + 65536 - n) % 65536).testBit 15)
      (decide (a % 4096 < n)) hf
    exact ⟨c1, c2, c3, c4, c5, rfl⟩

/-- Witness for C7: the spec's own scenario, INC of 0x7FFF by 1 with a
carry already set: result 0x8000, S = 1, V = 1, C unchanged (= 1). -/
theorem inc_dec_flags_witness :
    (execINC 0x0080 0x7FFF 1).2.testBit 7 = true ∧
    (execINC 0x0080 0x7FFF 1).2.testBit 5 = true ∧
    (execINC 0x0080 0x7FFF 1).2.testBit 4 = true ∧
    (execINC 0x0080 0x7FFF 1).1 = 0x8000 := by
  obtain ⟨h7, _, h5, h4, _, h1⟩ :=
    (inc_dec_flags 0x0080 0x7FFF 1 (by decide) (by decide) (by decide) (by decide)).1
  refine ⟨h7.trans (by decide), h5.trans (by decide), h4.trans (by decide),
    h1.trans (by decide)⟩

theorem blockTerm_once (b : Bool) (c : Nat) : blockTerm BlockForm.once b c = true := rfl

theorem blockTerm_rep (b : Bool) (c : Nat) : blockTerm BlockForm.rep b c = (c == 0) := rfl

theorem blockTerm_repCP (b : Bool) (c : Nat) :
    blockTerm BlockForm.repCP b c = ((c == 0) || b) := rfl

theorem blockStep_count_eq (form : BlockForm) (b : Bool) (count : Nat) :
    (blockStep form b count).count = (count + 65535) % 65536 := rfl

theorem blockStep_v_eq (form : BlockForm) (b : Bool) (count : Nat) :
    (blockStep form b count).vFlag = ((count + 65535) % 65536 == 0) := rfl

theorem blockStep_term (form : BlockForm) (b : Bool) (count : Nat) :
    (blockStep form b count).terminated = blockTerm form b ((count + 65535) % 65536) := rfl

theorem blockStep_pcRe (form : BlockForm) (b : Bool) (count : Nat) :
    (blockStep form b count).pcRewound = !(blockStep form b count).terminated := rfl

theorem blockRun_succ (form : BlockForm) (cond : Nat → Bool) (i count fuel : Nat) :
    blockRun form cond i count (fuel + 1) =
      if (blockStep form (cond i) count).terminated
      then ((blockStep form (cond i) count).count, i + 1)
      else blockRun form cond (i + 1) (blockStep form (cond i) count).count fuel := by
  rw [blockRun]

/-- A repeating non-compare block instruction (LDIR, LDDR, ...) always
runs its count down to 0. -/
theorem blockRun_rep_count_zero (cond : Nat → Bool) :
    ∀ fuel count i, 0 < count → count ≤ fuel → count < 65536 →
      (blockRun BlockForm.rep cond i count fuel).1 = 0 := by
  intro fuel
  induction fuel with
  | zero =>
    intro count i hc1 hc2 _
    omega
  | succ fuel ih =>
    intro count i hc1 hc2 hc3
    rw [blockRun_succ, blockStep_term, blockTerm_rep, blockStep_count_eq]
    by_cases hz : (count + 65535) % 65536 = 0
    · rw [if_pos (by simp [hz])]
      exact hz
    · rw [if_neg (by simp [hz])]
      exact ih ((count + 65535) % 65536) (i + 1) (by omega) (by omega) (by omega)

/-- A repeating compare block instruction (CPIR, CPDR) either exhausts
its count or stops at the first iteration whose condition matched. -/
theorem blockRun_repCP_spec (cond : Nat → Bool) :
    ∀ fuel count i, 0 < count → count ≤ fuel → count < 65536 →
      (blockRun BlockForm.repCP cond i count fuel).1 = 0 ∨
      (cond ((blockRun BlockForm.repCP cond i count fuel).2 - 1) = true ∧
        ∀ k, i ≤ k → k < (blockRun BlockForm.repCP cond i count fuel).2 - 1 →
          cond k = false) := by
  intro fuel
  induction fuel with
  | zero =>
    intro count i hc1 hc2 _
    omega
  | succ fuel ih =>
    intro count i hc1 hc2 hc3
    rw [blockRun_succ, blockStep_term, blockTerm_repCP, blockStep_count_eq]
    by_cases hz : (count + 65535) % 65536 = 0
    · rw [if_pos (by simp [hz])]
      left
      exact hz
    · by_cases hm : cond i = true
      · rw [if_pos (by simp [hm])]
        right
        simp only [Nat.add_sub_cancel]
        refine ⟨hm, ?_⟩
        intro k hk1 hk2
        omega
      · have hm0 : cond i = false := by
          revert hm
          cases cond i <;> simp
        rw [if_neg (by simp [hz, hm0])]
        have hrec := ih ((count + 65535) % 65536) (i + 1) (by omega) (by omega) (by omega)
        rcases hrec with hl | ⟨ha, hb⟩
        · left
          exact hl
        · right
          refine ⟨ha, ?_⟩
          intro k hk1 hk2
          rcases Nat.eq_or_lt_of_le hk1 with hk | hk
          · rw [← hk]
            exact hm0
          · exact hb k (by omega) hk2

/-- C4: one block-instruction iteration on a nonzero 16-bit count
decrements the count register by exactly 1 and sets V iff the count
became 0; it terminates iff the instruction is non-repeating, or
repeating with the count at 0, or a CPxR form whose condition matched;
otherwise PC is rewound.  Running a repeating form to completion leaves
the count at 0 (LDIR-like forms always; CPIR-like forms unless the
condition matched exactly once, on the final iteration). -/
theorem block_instruction_semantics (count : Nat) (h1 : 0 < count) (h2 : count < 65536)
    (form : BlockForm) (cond : Nat → Bool) :
    (blockStep form (cond 0) count).count = count - 1 ∧
    ((blockStep form (cond 0) count).vFlag = true ↔ count - 1 = 0) ∧
    ((blockStep form (cond 0) count).terminated = true ↔
      (form = BlockForm.once ∨ (form ≠ BlockForm.once ∧ count - 1 = 0) ∨
        (form = BlockForm.repCP ∧ cond 0 = true))) ∧
    (blockStep form (cond 0) count).pcRewound = !(blockStep form (cond 0) count).terminated ∧
    (blockRun BlockForm.rep cond 0 count count).1 = 0 ∧
    ((blockRun BlockForm.repCP cond 0 count count).1 = 0 ∨
      (cond ((blockRun BlockForm.repCP cond 0 count count).2 - 1) = true ∧
        ∀ k, k < (blockRun BlockForm.repCP cond 0 count count).2 - 1 → cond k = false)) := by
  refine ⟨?_, ?_, ?_, blockStep_pcRe form (cond 0) count, ?_, ?_⟩
  · rw [blockStep_count_eq]
    omega
  · rw [blockStep_v_eq]
    simp only [beq_iff_eq]
    omega
  · have d1 : BlockForm.rep ≠ BlockForm.once := by decide
    have d2 : BlockForm.rep ≠ BlockForm.repCP := by decide
    have d3 : BlockForm.repCP ≠ BlockForm.once := by decide
    cases form
    · rw [blockStep_term, blockTerm_once]
      simp
    · rw [blockStep_term, blockTerm_rep]
      simp only [beq_iff_eq, d1, d2, false_and, and_false, or_false, false_or, ne_eq,
        not_false_eq_true, true_and]
      omega
    · rw [blockStep_term, blockTerm_repCP]
      simp only [Bool.or_eq_true, beq_iff_eq, d3, false_or, ne_eq, not_false_eq_true, true_and]
      constructor
      · rintro (hz | hm)
        · exact Or.inl (by omega)
        · exact Or.inr hm
      · rintro (hz | hm)
        · exact Or.inl (by omega)
        · exact Or.inr hm
  · exact blockRun_rep_count_zero cond count count 0 h1 (Nat.le_refl count) h2
  · rcases blockRun_repCP_spec cond count count 0 h1 (Nat.le_refl count) h2 with hl | ⟨ha, hb⟩
    · exact Or.inl hl
    · exact Or.inr ⟨ha, fun k hk => hb k (Nat.zero_le k) hk⟩

/-- Witness for C4 at count = 3 with a condition that matches at
iteration 1. -/
theorem block_instruction_semantics_witness :
    (blockStep BlockForm.repCP (decide ((0 : Nat) = 1)) 3).count = 3 - 1 ∧
    (blockRun BlockForm.rep (fun i => decide (i = 1)) 0 3 3).1 = 0 :=
  ⟨(block_instruction_semantics 3 (by decide) (by decide) BlockForm.repCP
      (fun i => decide (i = 1))).1,
   (block_instruction_semantics 3 (by decide) (by decide) BlockForm.repCP
      (fun i => decide (i = 1))).2.2.2.2.1⟩

/-- C5: `CPIR R3,@R4,R5,eq` with R3 = 0x3333, R4 = 0x1000, R5 = 5 over
that memory terminates with Z set, R4 = 0x1006 and R5 = 2. -/
theorem cpir_early_match :
    cpirRun cpirMem 0x3333 0x1000 5 5 = ⟨0x1006, 2, true⟩ := by
  decide
